import Mathlib

/-!
# Verification of the `near_directory` data-normalization core

Shallow embedding, over exact rationals, of the reusable logic of the
repository: the Gini coefficient (`src/near/gov/gov_utils.py` /
`src/near/journey/journey_utils.py`), token-decimal normalization and the
price join (`src/near/finance/fin_utils.py`), the multi-blockchain loader
and the interactive time-series chart builders (`src/near/utils.py`,
`src/near/finance/fin_utils.py`).  Machine floats of the source are
modelled by `ℚ`; pandas tables by lists of records; the external HTTP
price source by an explicit function argument.
-/

/-! ## Gini coefficient (`gov_utils.gini` = `journey_utils.gini`) -/

/-- Model of `np.amin` on a non-empty 1-d array; `0` is junk for the empty array
(the real `np.amin` raises there, see `giniExc`). -/
def amin : List ℚ → ℚ
  | [] => 0
  | x :: xs => xs.foldl min x

/-- Model of `np.sort` (ascending) on rationals. -/
def sortQ (l : List ℚ) : List ℚ := l.insertionSort (· ≤ ·)

/-- The sum `Σ (2*i - n - 1) * x_i` over a list whose first element has
1-based index `i`: the `np.sum((2 * index - n - 1) * array)` numerator of
`gini`. -/
def giniNumAux (n : ℚ) (i : ℚ) : List ℚ → ℚ
  | [] => 0
  | x :: xs => (2 * i - n - 1) * x + giniNumAux n (i + 1) xs

/-- The two adjustment statements of `gini`'s body:
`if np.amin(array) < 0: array -= np.amin(array)` followed by
`array += 0.0000001`, with the epsilon offset as a parameter `e` (the
source hard-codes `e = 1e-7`). -/
def giniAdjust (e : ℚ) (l : List ℚ) : List ℚ :=
  (if amin l < 0 then l.map (fun x => x - amin l) else l).map (fun x => x + e)

/-- The return statement of `gini` on the sorted array:
`np.sum((2 * index - n - 1) * array) / (n * np.sum(array))` with
`index = 1..n` and `n = array.shape[0]`. -/
def giniFormula (array : List ℚ) : ℚ :=
  giniNumAux array.length 1 array / (array.length * array.sum)

/-- Generalization of `gini` with the epsilon offset kept as a parameter `e` (used to state
how the fixed offset interacts with uniform scaling): adjust, sort
ascending, apply the rank formula. -/
def giniGen (e : ℚ) (l : List ℚ) : ℚ :=
  giniFormula (sortQ (giniAdjust e l))

/-- Function `gini` of `src/near/gov/gov_utils.py` (lines 256-280), identical to
`src/near/journey/journey_utils.py` (lines 51-75): the epsilon is the
source's literal `0.0000001`. -/
def gini (l : List ℚ) : ℚ := giniGen (1 / 10000000) l

/-- Model of `np.amin`, fallible: on a zero-size array numpy raises `ValueError`. -/
def npAmin (l : List ℚ) : Except String ℚ :=
  match l with
  | [] => .error "ValueError: zero-size array to reduction operation minimum which has no identity"
  | x :: xs => .ok (xs.foldl min x)

/-- Variant of `gini` with the failure of `np.amin` on empty input made explicit:
the first statement of the function body already raises, so the final
division is never reached on an empty array. -/
def giniExc (l : List ℚ) : Except String ℚ := do
  let m ← npAmin l
  let array := if m < 0 then l.map (fun x => x - m) else l
  let array := array.map (fun x => x + 1 / 10000000)
  return giniFormula (sortQ array)

/-- The spec's statement of the algorithm, written with an explicit
1-based-rank indexed sum over the sorted array: shift up by `-min` when
the minimum is negative, add `1e-7` to every value, sort ascending, and
return `Σ((2i - n - 1) * x_i) / (n * Σ x_i)`. -/
def giniSpecAlg (l : List ℚ) : ℚ :=
  let shifted := if amin l < 0 then l.map (fun x => x + -amin l) else l
  let adjusted := shifted.map (fun x => x + 1 / 10000000)
  let s := sortQ adjusted
  let n : ℚ := s.length
  (∑ i ∈ Finset.range s.length, (2 * ((i : ℚ) + 1) - n - 1) * s.getD i 0) / (n * s.sum)

/-! ## Token-decimal normalization (`fin_utils.get_decimals`, lines 108-118) -/

/-- A row of the token-metadata table `ft` (the ref.finance `/api/ft`
table): only the four columns `get_decimals` selects are modelled; the
text `decimals` column is carried already coerced to an integer (the
source applies `pd.to_numeric`). -/
structure FtRow where
  name : String
  symbol : String
  token_account_id : String
  decimals : ℤ
deriving DecidableEq

/-- A row of the table `get_decimals` returns. -/
structure DecimalsRow where
  name : String
  symbol : String
  token_account_id : String
  decimals_raw : ℤ
  decimals : ℤ
  conversion_factor : ℚ
deriving DecidableEq

/-- Function `get_decimals(token_ids, ft, precorrection=18)`: keep the metadata
rows whose `token_account_id` is among the requested ids, record the raw
decimals, subtract `precorrection` when it is truthy (non-zero), and set
`conversion_factor = 10 ** decimals` (a power of ten with a possibly
negative integer exponent). -/
def get_decimals (token_ids : List String) (ft : List FtRow) (precorrection : ℤ := 18) :
    List DecimalsRow :=
  (ft.filter fun r => token_ids.contains r.token_account_id).map fun r =>
    let decimals_raw := r.decimals
    let d := if precorrection ≠ 0 then decimals_raw - precorrection else decimals_raw
    { name := r.name, symbol := r.symbol, token_account_id := r.token_account_id,
      decimals_raw := decimals_raw, decimals := d,
      conversion_factor := (10 : ℚ) ^ d }

/-- Concrete metadata row used to evaluate `get_decimals` (the spec's
end-to-end scenario: `usdc.token` with 24 raw decimals). -/
def usdcFt : FtRow :=
  { name := "USD Coin", symbol := "USDC", token_account_id := "usdc.token", decimals := 24 }

/-- Output row `get_decimals ["usdc.token"] [usdcFt] 18` produces:
`24 - 18 = 6` effective decimals, conversion factor `10 ^ 6`. -/
def usdcDecRow : DecimalsRow :=
  { name := "USD Coin", symbol := "USDC", token_account_id := "usdc.token",
    decimals_raw := 24, decimals := 6, conversion_factor := 1000000 }

/-! ## Price-series fetch (`fin_utils.get_price_df`, lines 95-105) -/

/-- A row of the table passed to `get_price_df`: only the `symbol` and
`token_id` columns are read by it. -/
structure TokenRow where
  symbol : String
  token_id : String
deriving DecidableEq

/-- A record of the series returned by the external price endpoint
`get_price(token_id)` (`/api/price-data?tokenId=...`): `{date, price}`.
The timestamp is a rational number of days (it may carry a fractional
sub-day part) and the price is carried already numeric (the source
applies `pd.to_numeric`). -/
structure RawPriceRow where
  date : ℚ
  price : ℚ
deriving DecidableEq

/-- A row of the table built by `get_price_df`: a fetched price record
tagged with the `Token ID` and `Symbol` columns. -/
structure PriceDfRow where
  date : ℚ
  price : ℚ
  tokenID : String
  symbol : String
deriving DecidableEq

/-- Function `get_price_df(token_list, df)`: select `token_id` of the rows of `df`
whose `symbol` is in `token_list` (one entry per matching row, in row
order), then for each `(x, y)` in `zip(token_ids, token_list)` fetch the
series `get_price(x)` and tag it with `Token ID = x`, `Symbol = y`;
concatenate the tagged series.  The external cached fetch `get_price` is
an explicit function argument. -/
def get_price_df (get_price : String → List RawPriceRow)
    (token_list : List String) (df : List TokenRow) : List PriceDfRow :=
  let token_ids := (df.filter fun r => token_list.contains r.symbol).map fun r => r.token_id
  ((token_ids.zip token_list).map fun xy =>
    (get_price xy.1).map fun pr =>
      { date := pr.date, price := pr.price, tokenID := xy.1, symbol := xy.2 }).flatten

/-- A metadata table in which the symbol `A` occupies two rows (token
`a`) before the symbol `B` (token `b`) — the shape `reward_claims_by_token`
takes, where every token has one row per day. -/
def dupSymbolDf : List TokenRow :=
  [{ symbol := "A", token_id := "a" }, { symbol := "A", token_id := "a" },
   { symbol := "B", token_id := "b" }]

/-- A price source returning a single record for every token id. -/
def unitPriceSource : String → List RawPriceRow :=
  fun _ => [{ date := 0, price := 1 }]

/-! ## Price join (`fin_utils.get_rewards_by_token` lines 263-271,
`get_pool_deposit_withdraws` lines 308-319) -/

/-- An amount-side row at the moment of the price merge: its join key
(`symbol`, day-truncated `Date`) and the already-normalized
`Total Amount`. -/
structure AmountRow where
  symbol : String
  date : ℤ
  totalAmount : ℚ
deriving DecidableEq

/-- A row of the price table `price_df[["price", "Symbol", "Date"]]`
after its `Date` has been truncated to calendar-day granularity. -/
structure PricePoint where
  symbol : String
  date : ℤ
  price : ℚ
deriving DecidableEq

/-- An output row of the join: `price` and `Amount (USD)` are `none`
exactly where pandas leaves `NaN`. -/
structure JoinedRow where
  symbol : String
  date : ℤ
  totalAmount : ℚ
  price : Option ℚ
  amountUSD : Option ℚ
deriving DecidableEq

/-- One amount row against the whole price table, pandas
`merge(how="left")` semantics: the row pairs with every price row of
equal `(symbol, date)` key, and is kept once with a null price when no
key matches. -/
def joinOne (prices : List PricePoint) (a : AmountRow) : List (AmountRow × Option ℚ) :=
  match prices.filter fun p => p.symbol == a.symbol && p.date == a.date with
  | [] => [(a, none)]
  | ps => ps.map fun p => (a, some p.price)

/-- Model of `merge(price_df[["price", "Symbol", "Date"]], left_on=["symbol", "Date"],
right_on=["Symbol", "Date"], how="left")`: left-join the amount rows to
the price table, keeping left order. -/
def leftMergePrice (amounts : List AmountRow) (prices : List PricePoint) :
    List (AmountRow × Option ℚ) :=
  amounts.flatMap (joinOne prices)

/-- The merge followed by the assignment
`df["Amount (USD)"] = df["Total Amount"] * df["price"]` (pandas `NaN`
propagates through the product, modelled by `Option.map`). -/
def priceJoin (amounts : List AmountRow) (prices : List PricePoint) : List JoinedRow :=
  (leftMergePrice amounts prices).map fun ap =>
    { symbol := ap.1.symbol, date := ap.1.date, totalAmount := ap.1.totalAmount,
      price := ap.2, amountUSD := ap.2.map fun pr => ap.1.totalAmount * pr }

/-- Two amount rows: one with a matching price point, one dated a day
with no price record. -/
def sampleAmounts : List AmountRow :=
  [{ symbol := "USDC", date := 1, totalAmount := 5 },
   { symbol := "DAI", date := 2, totalAmount := 3 }]

/-- A one-row price table: `USDC` on day 1 at 1 USD. -/
def samplePrices : List PricePoint :=
  [{ symbol := "USDC", date := 1, price := 1 }]

/-! ## Multi-blockchain loader (`near/utils.py load_data`, lines 58-84) -/

/-- A row fetched from one per-blockchain query: only the `datetime`
column is relevant here, as a rational number of days (fractional part =
time of day). -/
structure QRow where
  datetime : ℚ
deriving DecidableEq

/-- A row of the concatenated `user_data` table, tagged with its source
blockchain. -/
structure URow where
  datetime : ℚ
  blockchain : String
deriving DecidableEq

/-- The comparison `sort_values(by="datetime")` sorts by. -/
def dtLE (a b : URow) : Prop := a.datetime ≤ b.datetime

instance : DecidableRel dtLE :=
  fun a b => inferInstanceAs (Decidable (a.datetime ≤ b.datetime))

instance : IsTotal URow dtLE := ⟨fun a b => le_total a.datetime b.datetime⟩

instance : IsTrans URow dtLE := ⟨fun _ _ _ hab hbc => le_trans hab hbc⟩

/-- Model of `sort_values(by="datetime")` (the relative order of rows with equal
timestamps is not specified by the source's quicksort). -/
def sortByDatetime (l : List URow) : List URow := l.insertionSort dtLE

/-- Model of `.dt.date`: calendar-day truncation of a timestamp measured in
(possibly fractional) days. -/
def dateOf (t : ℚ) : ℤ := ⌊t⌋

/-- Function `load_data` of `src/near/utils.py`: fetch each configured query
(modelled by the explicit `sources` list of blockchain-name/rows pairs),
tag each frame with its blockchain, concatenate, sort ascending by
`datetime`, and keep only the rows whose calendar date is strictly
before `datetime.date.today()` (the `today` argument). -/
def load_data (sources : List (String × List QRow)) (today : ℤ) : List URow :=
  let dfs := sources.map fun v => v.2.map fun r =>
    { datetime := r.datetime, blockchain := v.1 : URow }
  let user_data := sortByDatetime dfs.flatten
  user_data.filter fun r => dateOf r.datetime < today

/-- Three rows over two blockchains; the row at day 9 is not before
day 5. -/
def sampleSources : List (String × List QRow) :=
  [("NEAR", [{ datetime := 2 }, { datetime := 9 }]), ("Ethereum", [{ datetime := 1 }])]

/-! ## Chart builders (`near/utils.py alt_line_chart` lines 87-139,
`fin_utils.alt_date_line` lines 342-400)

The declarative chart specification the builders emit is deep-embedded:
a chart is a list of layers, each carrying its mark, encodings and
transforms.  Axis/legend titles and pixel properties (height, the
`.interactive()` wrapper) are presentation text with no behavior and are
not modelled. -/

inductive MarkType
  | line
  | point
  | rule
deriving DecidableEq

instance : Inhabited MarkType := ⟨MarkType.line⟩

/-- Parameters of `alt.selection_single(fields=..., nearest=..., on=..., empty=...,
clear=...)`. -/
structure SelectionSingle where
  fields : List String
  nearest : Bool
  onEvent : String
  emptyBehavior : String
  clearEvent : String
deriving DecidableEq, Inhabited

/-- Parameters of `transform_pivot(pivot, value=..., groupby=[...])`. -/
structure PivotTransform where
  pivot : String
  value : String
  groupby : List String
deriving DecidableEq, Inhabited

/-- Parameters of `opacity=alt.condition(selection, alt.value(active), alt.value(inactive))`. -/
structure OpacityCondition where
  selection : SelectionSingle
  active : ℚ
  inactive : ℚ
deriving DecidableEq, Inhabited

/-- Parameters of `alt.Tooltip(field, type=..., format=..., title=...)`. -/
structure TooltipSpec where
  field : String
  quantitative : Bool
  format : String
  title : String
deriving DecidableEq, Inhabited

/-- One layer of a layered chart. -/
structure LayerSpec where
  mark : MarkType
  xField : String
  yField : Option String
  yScaleType : Option String
  yScaleZero : Option Bool
  yScaleDomain : Option (ℚ × ℚ)
  colorField : Option String
  filterSelection : Option SelectionSingle
  pivotTransform : Option PivotTransform
  opacityCondition : Option OpacityCondition
  tooltips : List TooltipSpec
  addedSelections : List SelectionSingle
deriving DecidableEq, Inhabited

/-- The layered chart `lines + points + rule`. -/
structure ChartSpec where
  layers : List LayerSpec
deriving DecidableEq, Inhabited

/-- Model of `sorted(column.unique())`: the distinct values in ascending order
(after sorting, which occurrence of each duplicate survived the
deduplication is immaterial). -/
def sortedStrings (l : List String) : List String := l.dedup.insertionSort (· ≤ ·)

/-- Function `alt_line_chart(data, colname, log_scale=True)` of
`src/near/utils.py`: a line layer, a point layer filtered by the
nearest-datetime selection, and a pivoted rule layer whose opacity is
0.3 when the selection is active and 0 otherwise, with one tooltip
column per blockchain present in the data. -/
def alt_line_chart (data : List URow) (colname : String) (log_scale : Bool := true) :
    ChartSpec :=
  let scale := if log_scale then "log" else "linear"
  let columns := sortedStrings (data.map fun r => r.blockchain)
  let selection : SelectionSingle :=
    { fields := ["datetime"], nearest := true, onEvent := "mouseover",
      emptyBehavior := "none", clearEvent := "mouseout" }
  let lines : LayerSpec :=
    { mark := MarkType.line, xField := "yearmonthdate(datetime):T",
      yField := some colname, yScaleType := some scale, yScaleZero := none,
      yScaleDomain := none, colorField := some "blockchain:N",
      filterSelection := none, pivotTransform := none, opacityCondition := none,
      tooltips := [], addedSelections := [] }
  let points : LayerSpec := { lines with mark := MarkType.point, filterSelection := some selection }
  let rule : LayerSpec :=
    { mark := MarkType.rule, xField := "yearmonthdate(datetime):T",
      yField := none, yScaleType := none, yScaleZero := none, yScaleDomain := none,
      colorField := none, filterSelection := none,
      pivotTransform := some { pivot := "blockchain", value := colname, groupby := ["datetime"] },
      opacityCondition := some { selection := selection, active := 3 / 10, inactive := 0 },
      tooltips := { field := "datetime", quantitative := false, format := "", title := "Date" } ::
        columns.map fun c => { field := c, quantitative := true, format := ",", title := "" },
      addedSelections := [selection] }
  { layers := [lines, points, rule] }

/-- Lookup `df[col]` on the price table built by `get_price_df`, for the
categorical columns the chart reads; numeric or unknown columns are not
consumed by the chart structure and yield `""`. -/
def priceDfCol (col : String) (r : PriceDfRow) : String :=
  if col = "Symbol" then r.symbol
  else if col = "Token ID" then r.tokenID
  else ""

/-- The comparison `sort_values(by="date")` sorts the price table by. -/
def pdLE (a b : PriceDfRow) : Prop := a.date ≤ b.date

instance : DecidableRel pdLE :=
  fun a b => inferInstanceAs (Decidable (a.date ≤ b.date))

/-- Slice `df.iloc[-n:]`: the last `n` rows (the slice `-0:` is the whole
frame). -/
def ilocLast (n : ℕ) (df : List PriceDfRow) : List PriceDfRow :=
  if n = 0 then df else df.drop (df.length - n)

/-- Function `alt_date_line(token_list, base_df, value, title, date_range, ...)`
of `src/near/finance/fin_utils.py`: build the tagged price table via
`get_price_df`, sort it by date, keep the trailing `date_range` rows when
an integer range is given, then emit the same three-layer pattern keyed
on the `date` column, with the `is_stable` knob fixing the y domain to
`[0.8, 1.2]`. -/
def alt_date_line (get_price : String → List RawPriceRow) (token_list : List String)
    (base_df : List TokenRow) (value : String) (date_range : Option ℕ)
    (val_format : String := "") (color_col : String := "token") (is_stable : Bool := false) :
    ChartSpec :=
  let df := get_price_df get_price token_list base_df
  let df := df.insertionSort pdLE
  let df := match date_range with
    | some n => ilocLast n df
    | none => df
  let columns := sortedStrings (df.map (priceDfCol color_col))
  let selection : SelectionSingle :=
    { fields := ["date"], nearest := true, onEvent := "mouseover",
      emptyBehavior := "none", clearEvent := "mouseout" }
  let lines : LayerSpec :=
    { mark := MarkType.line, xField := "yearmonthdate(date):T",
      yField := some value, yScaleType := none, yScaleZero := some false,
      yScaleDomain := if is_stable then some (8 / 10, 12 / 10) else none,
      colorField := some color_col,
      filterSelection := none, pivotTransform := none, opacityCondition := none,
      tooltips := [], addedSelections := [] }
  let points : LayerSpec := { lines with mark := MarkType.point, filterSelection := some selection }
  let rule : LayerSpec :=
    { mark := MarkType.rule, xField := "yearmonthdate(date):T",
      yField := none, yScaleType := none, yScaleZero := none, yScaleDomain := none,
      colorField := none, filterSelection := none,
      pivotTransform := some { pivot := color_col, value := value, groupby := ["date"] },
      opacityCondition := some { selection := selection, active := 3 / 10, inactive := 0 },
      tooltips :=
        { field := "yearmonthdate(date):T", quantitative := false, format := "", title := "Date" } ::
          columns.map fun c => { field := c, quantitative := true, format := val_format, title := "" },
      addedSelections := [selection] }
  { layers := [lines, points, rule] }

/-- The single selection `alt_line_chart` creates: nearest-point, keyed
on the temporal column `datetime`, triggered on `mouseover`, cleared on
`mouseout`, empty by default. -/
def lineChartSelection : SelectionSingle :=
  { fields := ["datetime"], nearest := true, onEvent := "mouseover",
    emptyBehavior := "none", clearEvent := "mouseout" }

/-- The single selection `alt_date_line` creates: identical to
`lineChartSelection` except keyed on its temporal column `date`. -/
def dateLineSelection : SelectionSingle :=
  { fields := ["date"], nearest := true, onEvent := "mouseover",
    emptyBehavior := "none", clearEvent := "mouseout" }

/-! ### Helper lemmas about the gini pipeline -/

theorem foldl_min_replicate (c : ℚ) :
    ∀ (n : ℕ) (a : ℚ), (List.replicate n c).foldl min a = if n = 0 then a else min a c := by
  intro n
  induction n with
  | zero => simp
  | succ k ih =>
    intro a
    rw [List.replicate_succ, List.foldl_cons, ih]
    rcases Nat.eq_zero_or_pos k with hk | hk
    · simp [hk]
    · simp [Nat.pos_iff_ne_zero.mp hk, min_assoc]

theorem amin_replicate (m : ℕ) (c : ℚ) : amin (List.replicate (m + 1) c) = c := by
  rw [List.replicate_succ]
  show (List.replicate m c).foldl min c = c
  rw [foldl_min_replicate]
  rcases Nat.eq_zero_or_pos m with hm | hm
  · simp [hm]
  · simp [Nat.pos_iff_ne_zero.mp hm]

theorem sortQ_replicate (k : ℕ) (w : ℚ) : sortQ (List.replicate k w) = List.replicate k w := by
  apply List.Sorted.insertionSort_eq
  rw [List.Sorted, List.pairwise_replicate]
  exact Or.inr le_rfl

theorem giniNumAux_replicate (n : ℚ) (v : ℚ) :
    ∀ (m : ℕ) (i : ℚ),
      giniNumAux n i (List.replicate m v) = v * m * (2 * i + m - n - 2) := by
  intro m
  induction m with
  | zero => intro i; simp [giniNumAux]
  | succ p ih =>
    intro i
    rw [List.replicate_succ]
    show (2 * i - n - 1) * v + giniNumAux n (i + 1) (List.replicate p v) = _
    rw [ih (i + 1)]
    push_cast
    ring

theorem giniFormula_replicate (k : ℕ) (w : ℚ) : giniFormula (List.replicate k w) = 0 := by
  unfold giniFormula
  rw [List.length_replicate, giniNumAux_replicate]
  have h : (2 * (1 : ℚ) + (k : ℚ) - (k : ℚ) - 2) = 0 := by ring
  rw [h, mul_zero, zero_div]

theorem giniAdjust_replicate (e c : ℚ) (m : ℕ) :
    ∃ w, giniAdjust e (List.replicate (m + 1) c) = List.replicate (m + 1) w := by
  unfold giniAdjust
  rw [amin_replicate]
  by_cases hc : c < 0
  · exact ⟨c - c + e, by rw [if_pos hc, List.map_replicate, List.map_replicate]⟩
  · exact ⟨c + e, by rw [if_neg hc, List.map_replicate]⟩

/-- Value of `gini` on any constant sequence is exactly `0` (the weighted sum
`Σ (2i - n - 1) v` telescopes to `0`). -/
theorem gini_replicate (n : ℕ) (c : ℚ) : gini (List.replicate n c) = 0 := by
  cases n with
  | zero =>
    show giniGen (1 / 10000000) [] = 0
    norm_num [giniGen, giniAdjust, amin, sortQ, List.insertionSort, giniFormula, giniNumAux]
  | succ m =>
    obtain ⟨w, hw⟩ := giniAdjust_replicate (1 / 10000000) c m
    show giniFormula (sortQ (giniAdjust (1 / 10000000) (List.replicate (m + 1) c))) = 0
    rw [hw, sortQ_replicate, giniFormula_replicate]

example : gini [0, 1] = 1 / (2 + 4 / 10000000) := by
  norm_num [gini, giniGen, giniAdjust, giniFormula, amin, sortQ, List.insertionSort,
    List.orderedInsert, giniNumAux]

example : gini [1, 1, 1, 1] = 0 := by
  norm_num [gini, giniGen, giniAdjust, giniFormula, amin, sortQ, List.insertionSort,
    List.orderedInsert, giniNumAux]

theorem amin_map_mul (k : ℚ) (hk : 0 ≤ k) :
    ∀ l : List ℚ, amin (l.map (fun x => k * x)) = k * amin l := by
  have hfold : ∀ (xs : List ℚ) (a : ℚ),
      (xs.map (fun x => k * x)).foldl min (k * a) = k * xs.foldl min a := by
    intro xs
    induction xs with
    | nil => intro a; simp
    | cons y ys ih =>
      intro a
      rw [List.map_cons, List.foldl_cons, List.foldl_cons, ← mul_min_of_nonneg _ _ hk, ih]
  intro l
  cases l with
  | nil => simp [amin]
  | cons x xs => exact hfold xs x

theorem giniAdjust_map_mul (e k : ℚ) (l : List ℚ) (hk : 0 < k) :
    giniAdjust (k * e) (l.map (fun x => k * x)) = (giniAdjust e l).map (fun x => k * x) := by
  unfold giniAdjust
  rw [amin_map_mul k hk.le]
  have hcond : k * amin l < 0 ↔ amin l < 0 := by
    constructor
    · intro h; nlinarith
    · intro h; exact mul_neg_of_pos_of_neg hk h
  by_cases hm : amin l < 0
  · rw [if_pos (hcond.mpr hm), if_pos hm]
    rw [List.map_map, List.map_map, List.map_map, List.map_map]
    apply List.map_congr_left
    intro x _
    show k * x - k * amin l + k * e = k * (x - amin l + e)
    ring
  · rw [if_neg (fun h => hm (hcond.mp h)), if_neg hm]
    rw [List.map_map, List.map_map]
    apply List.map_congr_left
    intro x _
    show k * x + k * e = k * (x + e)
    ring

theorem sortQ_map_mul (k : ℚ) (hk : 0 ≤ k) (l : List ℚ) :
    sortQ (l.map (fun x => k * x)) = (sortQ l).map (fun x => k * x) := by
  apply List.eq_of_perm_of_sorted (r := (· ≤ · : ℚ → ℚ → Prop))
  · exact (List.perm_insertionSort _ _).trans ((List.perm_insertionSort _ l).symm.map _)
  · exact List.sorted_insertionSort _ _
  · exact List.Pairwise.map _ (fun a b hab => mul_le_mul_of_nonneg_left hab hk)
      (List.sorted_insertionSort _ l)

theorem giniNumAux_map_mul (n k : ℚ) :
    ∀ (l : List ℚ) (i : ℚ),
      giniNumAux n i (l.map (fun x => k * x)) = k * giniNumAux n i l := by
  intro l
  induction l with
  | nil => intro i; simp [giniNumAux]
  | cons x xs ih =>
    intro i
    rw [List.map_cons]
    show (2 * i - n - 1) * (k * x) + giniNumAux n (i + 1) (xs.map (fun x => k * x)) = _
    rw [ih (i + 1)]
    show _ = k * ((2 * i - n - 1) * x + giniNumAux n (i + 1) xs)
    ring

theorem sum_map_mul_left (k : ℚ) : ∀ l : List ℚ, (l.map (fun x => k * x)).sum = k * l.sum := by
  intro l
  induction l with
  | nil => simp
  | cons x xs ih => rw [List.map_cons, List.sum_cons, List.sum_cons, ih]; ring

theorem giniNumAux_eq_sum (n : ℚ) :
    ∀ (s : List ℚ) (i : ℚ),
      giniNumAux n i s = ∑ j ∈ Finset.range s.length, (2 * (i + (j : ℚ)) - n - 1) * s.getD j 0 := by
  intro s
  induction s with
  | nil => intro i; simp [giniNumAux]
  | cons x xs ih =>
    intro i
    show (2 * i - n - 1) * x + giniNumAux n (i + 1) xs = _
    rw [ih (i + 1), List.length_cons, Finset.sum_range_succ']
    simp only [List.getD_cons_succ, List.getD_cons_zero, Nat.cast_add, Nat.cast_one,
      Nat.cast_zero]
    rw [add_comm]
    congr 1
    · apply Finset.sum_congr rfl
      intro j _
      ring
    · ring

/-- C2: on every non-empty input, `gini` computes exactly the specified
algorithm: shift up by `-min` when the minimum is negative, add `1e-7`
to every value, sort ascending, and with 1-based ranks `i = 1..n` return
`Σ((2i - n - 1) * x_i) / (n * Σ x_i)`. -/
theorem gini_matches_spec_algorithm (l : List ℚ) (h : l ≠ []) :
    gini l = giniSpecAlg l := by
  show giniFormula (sortQ (giniAdjust (1 / 10000000) l)) = giniSpecAlg l
  unfold giniSpecAlg giniAdjust giniFormula
  have hmap : (fun x : ℚ => x - amin l) = (fun x : ℚ => x + -amin l) := by
    funext x; ring
  rw [hmap, giniNumAux_eq_sum]
  congr 1
  apply Finset.sum_congr rfl
  intro j _
  ring

theorem gini_matches_spec_algorithm_witness :
    ([(3 : ℚ), 1, 2] ≠ []) ∧ gini [(3 : ℚ), 1, 2] = giniSpecAlg [(3 : ℚ), 1, 2] :=
  ⟨by decide, gini_matches_spec_algorithm [(3 : ℚ), 1, 2] (by decide)⟩

/-- C5 counterexample: `gini` is not exactly invariant under uniform
positive scaling: at `x = [0, 1]`, `k = 2` the two values differ
(`1 / (2 + 2e-7)` versus `1 / (2 + 4e-7)`), because the fixed offset
`1e-7` is added after the scaling. -/
theorem gini_scaling_counterexample :
    gini (List.map (fun x => 2 * x) [(0 : ℚ), 1]) ≠ gini [(0 : ℚ), 1] := by
  norm_num [gini, giniGen, giniAdjust, giniFormula, amin, sortQ, List.insertionSort,
    List.orderedInsert, giniNumAux]

/-- C5 (amended): the scaling invariance holds exactly when the epsilon
offset is scaled along with the data: for `k > 0`,
`giniGen (k * e) (k • x) = giniGen e x`; the source's `gini` is
`giniGen 1e-7`, whose fixed offset breaks exact invariance. -/
theorem gini_scaling_with_scaled_eps (l : List ℚ) (k e : ℚ) (h : l ≠ []) (hk : 0 < k) :
    giniGen (k * e) (l.map (fun x => k * x)) = giniGen e l := by
  unfold giniGen giniFormula
  rw [giniAdjust_map_mul e k l hk, sortQ_map_mul k hk.le, List.length_map,
    giniNumAux_map_mul, sum_map_mul_left, mul_left_comm]
  exact mul_div_mul_left _ _ (ne_of_gt hk)

theorem gini_scaling_with_scaled_eps_witness :
    ([(0 : ℚ), 1] ≠ []) ∧ (0 : ℚ) < 2 ∧
      giniGen (2 * (1 / 10000000)) (List.map (fun x => 2 * x) [(0 : ℚ), 1]) =
        giniGen (1 / 10000000) [(0 : ℚ), 1] :=
  ⟨by decide, by norm_num,
    gini_scaling_with_scaled_eps [(0 : ℚ), 1] 2 (1 / 10000000) (by decide) (by norm_num)⟩

/-- C7: `gini` of a one-element sequence is exactly `0`, and `gini` of
`n ≥ 2` identical values is `0` within the tolerance `1e-6` (it is in
fact exactly `0`). -/
theorem gini_constant_sequences :
    (∀ c : ℚ, gini [c] = 0) ∧
      ∀ (n : ℕ) (c : ℚ), 2 ≤ n → |gini (List.replicate n c) - 0| ≤ 1 / 1000000 := by
  constructor
  · intro c
    simpa using gini_replicate 1 c
  · intro n c _
    rw [gini_replicate]
    norm_num

theorem gini_constant_sequences_witness :
    2 ≤ 4 ∧ |gini (List.replicate 4 (7 : ℚ)) - 0| ≤ 1 / 1000000 :=
  ⟨by norm_num, gini_constant_sequences.2 4 7 (by norm_num)⟩

/-- C8: on empty input `gini` fails at its very first array operation:
`np.amin` of a zero-size array raises `ValueError` (Python's
invalid-argument condition), so the final division — whose denominator
`n * Σ x_i` would be `0 * 0` — is never executed. -/
theorem gini_empty_input_error :
    giniExc [] =
      .error "ValueError: zero-size array to reduction operation minimum which has no identity" :=
  rfl

/-! ### Token-decimal normalization: theorems -/

/-- C3: every row selected by `get_decimals` has
`conversion_factor = 10 ^ (raw_decimals - precorrection)` when the
precorrection is non-zero, and passing `0` disables the correction so
`conversion_factor = 10 ^ raw_decimals`. -/
theorem get_decimals_conversion_factor (token_ids : List String) (ft : List FtRow)
    (p : ℤ) (r : DecimalsRow) (hr : r ∈ get_decimals token_ids ft p) :
    (p ≠ 0 → r.conversion_factor = (10 : ℚ) ^ (r.decimals_raw - p)) ∧
      (p = 0 → r.conversion_factor = (10 : ℚ) ^ r.decimals_raw) := by
  unfold get_decimals at hr
  rw [List.mem_map] at hr
  obtain ⟨a, -, rfl⟩ := hr
  constructor
  · intro hp
    simp [hp]
  · intro hp
    simp [hp]

theorem get_decimals_conversion_factor_witness :
    usdcDecRow ∈ get_decimals ["usdc.token"] [usdcFt] 18 ∧
      usdcDecRow.conversion_factor = (10 : ℚ) ^ (usdcDecRow.decimals_raw - 18) := by
  have hmem : usdcDecRow ∈ get_decimals ["usdc.token"] [usdcFt] 18 := by
    norm_num [get_decimals, usdcFt, usdcDecRow]
  exact ⟨hmem,
    (get_decimals_conversion_factor ["usdc.token"] [usdcFt] 18 usdcDecRow hmem).1
      (by norm_num)⟩

theorem countP_key_nodup (token_ids : List String) (tid : String) :
    ∀ ft : List FtRow, (ft.map (fun r => r.token_account_id)).Nodup →
      (ft.countP fun r => r.token_account_id == tid && token_ids.contains r.token_account_id) =
        if tid ∈ token_ids ∧ tid ∈ ft.map (fun r => r.token_account_id) then 1 else 0 := by
  intro ft
  induction ft with
  | nil => simp
  | cons a ft ih =>
    intro hft
    rw [List.map_cons, List.nodup_cons] at hft
    obtain ⟨hna, hnd⟩ := hft
    rw [List.countP_cons, ih hnd]
    by_cases ha : a.token_account_id = tid
    · subst ha
      by_cases hin : a.token_account_id ∈ token_ids
      · simp [hin, hna, List.contains, List.elem_iff, List.mem_cons]
      · simp [hin, hna, List.contains, List.elem_iff, List.mem_cons]
    · have hbeq : (a.token_account_id == tid) = false := by
        rw [beq_eq_false_iff_ne]
        exact ha
      simp [hbeq, List.mem_cons, Ne.symm ha]

/-- C9: for every set of requested token identifiers, `get_decimals`
(whose metadata table has unique keys, per the data model) returns
exactly one row for each requested identifier present in the metadata
table and zero rows for an identifier absent from the table or not
requested — missing identifiers are silently dropped, never an error and
never an extra row. -/
theorem get_decimals_requested_lookup (token_ids : List String) (ft : List FtRow)
    (p : ℤ) (tid : String)
    (hft : (ft.map (fun r => r.token_account_id)).Nodup) :
    ((get_decimals token_ids ft p).countP fun r => r.token_account_id == tid) =
      if tid ∈ token_ids ∧ tid ∈ ft.map (fun r => r.token_account_id) then 1 else 0 := by
  have hrw : ((get_decimals token_ids ft p).countP fun r => r.token_account_id == tid) =
      ft.countP fun r => r.token_account_id == tid && token_ids.contains r.token_account_id := by
    unfold get_decimals
    rw [List.countP_map, List.countP_filter]
    rfl
  rw [hrw]
  exact countP_key_nodup token_ids tid ft hft

theorem get_decimals_requested_lookup_witness :
    (([usdcFt].map (fun r => r.token_account_id)).Nodup) ∧
      ((get_decimals ["usdc.token", "ghost.token"] [usdcFt] 18).countP
          fun r => r.token_account_id == "usdc.token") =
        if "usdc.token" ∈ ["usdc.token", "ghost.token"] ∧
            "usdc.token" ∈ [usdcFt].map (fun r => r.token_account_id) then 1 else 0 :=
  ⟨by decide, get_decimals_requested_lookup ["usdc.token", "ghost.token"] [usdcFt] 18
    "usdc.token" (by decide)⟩

/-! ### Price fetch and join: theorems -/

/-- C1 (bug): `get_price_df` zips the row-ordered `token_ids` (one entry
per matching row of `df`, duplicates kept) with the distinct-symbol
`token_list`, so when a symbol occupies more than one row the pairing
slips: on `dupSymbolDf` (symbol `A` on two rows with token `a`, then
symbol `B` with token `b`) it fetches token `a` twice, tags the second
fetch `Symbol = "B"`, and never fetches `b` — the row tagged `"B"`
carries a series fetched with a token id whose symbol in `df` is `"A"`,
refuting the claim that every row's `Symbol` equals the symbol of the
token id used to fetch it. -/
theorem get_price_df_symbol_mismatch :
    ((get_price_df unitPriceSource ["A", "B"] dupSymbolDf).map fun r => (r.symbol, r.tokenID)) =
        [("A", "a"), ("B", "a")] ∧
      ¬ ∀ r ∈ get_price_df unitPriceSource ["A", "B"] dupSymbolDf,
          ∃ t ∈ dupSymbolDf, t.token_id = r.tokenID ∧ t.symbol = r.symbol := by
  decide

theorem filter_key_eq (s : String) (d : ℤ) :
    ∀ prices : List PricePoint, (prices.map fun p => (p.symbol, p.date)).Nodup →
      prices.filter (fun p => p.symbol == s && p.date == d) =
        (prices.find? fun p => p.symbol == s && p.date == d).toList := by
  intro prices
  induction prices with
  | nil => intro _; rfl
  | cons q rest ih =>
    intro h
    rw [List.map_cons, List.nodup_cons] at h
    obtain ⟨hq, hrest⟩ := h
    by_cases hpq : (q.symbol == s && q.date == d) = true
    · rw [List.filter_cons, List.find?_cons, if_pos hpq, hpq]
      have hnil : rest.filter (fun p => p.symbol == s && p.date == d) = [] := by
        rw [List.filter_eq_nil_iff]
        intro p hp hpred
        apply hq
        rw [Bool.and_eq_true, beq_iff_eq, beq_iff_eq] at hpq hpred
        have hkey : (q.symbol, q.date) = (p.symbol, p.date) := by
          rw [hpq.1, hpq.2, hpred.1, hpred.2]
        rw [hkey]
        exact List.mem_map_of_mem _ hp
      rw [hnil]
      rfl
    · rw [List.filter_cons, List.find?_cons, if_neg hpq]
      rw [Bool.not_eq_true] at hpq
      rw [hpq]
      exact ih hrest

theorem joinOne_eq (prices : List PricePoint) (a : AmountRow)
    (hkeys : (prices.map fun p => (p.symbol, p.date)).Nodup) :
    joinOne prices a =
      match prices.find? fun p => p.symbol == a.symbol && p.date == a.date with
      | none => [(a, none)]
      | some p => [(a, some p.price)] := by
  rw [joinOne, filter_key_eq a.symbol a.date prices hkeys]
  cases prices.find? fun p => p.symbol == a.symbol && p.date == a.date with
  | none => rfl
  | some p => rfl

/-- C4: under the data-model invariant that the price table has at most
one record per `(symbol, day)` key, the left join keeps every amount-side
row in order (the output is a `map` over the input — no row dropped, key
and amount columns unchanged), attaches the unique matching price, and a
row whose key has no matching price record gets a null `price` and hence
a null `Amount (USD)`. -/
theorem priceJoin_left_lookup (amounts : List AmountRow) (prices : List PricePoint)
    (hkeys : (prices.map fun p => (p.symbol, p.date)).Nodup) :
    priceJoin amounts prices = amounts.map fun a =>
      { symbol := a.symbol, date := a.date, totalAmount := a.totalAmount,
        price := (prices.find? fun p => p.symbol == a.symbol && p.date == a.date).map
          fun p => p.price,
        amountUSD := ((prices.find? fun p => p.symbol == a.symbol && p.date == a.date).map
          fun p => p.price).map fun pr => a.totalAmount * pr } := by
  induction amounts with
  | nil => rfl
  | cons a rest ih =>
    show ((leftMergePrice (a :: rest) prices).map _) = _
    rw [leftMergePrice, List.flatMap_cons, List.map_append, List.map_cons]
    have hrest : ((rest.flatMap (joinOne prices)).map _) = _ := ih
    rw [joinOne_eq prices a hkeys]
    cases hf : prices.find? fun p => p.symbol == a.symbol && p.date == a.date with
    | none => simp only [hf, List.map_cons, List.map_nil]; exact congrArg _ ih
    | some p => simp only [hf, List.map_cons, List.map_nil]; exact congrArg _ ih


theorem priceJoin_left_lookup_witness :
    ((samplePrices.map fun p => (p.symbol, p.date)).Nodup) ∧
      priceJoin sampleAmounts samplePrices =
        [{ symbol := "USDC", date := 1, totalAmount := 5, price := some 1, amountUSD := some 5 },
         { symbol := "DAI", date := 2, totalAmount := 3, price := none, amountUSD := none }] :=
  ⟨by decide,
    (priceJoin_left_lookup sampleAmounts samplePrices (by decide)).trans (by
      norm_num [sampleAmounts, samplePrices, List.find?]
      rfl)⟩

/-! ### Chart builders: theorems -/

/-- C6: both time-series chart builders emit a three-layer spec — a line
layer, a point layer filtered by the selection, and a pivoted rule
layer — with a single selection, attached (`add_selection`) only to the
rule layer, that is nearest-point, keyed on the builder's temporal
column (`datetime` for `alt_line_chart`, `date` for `alt_date_line`),
triggered on `mouseover`, cleared on `mouseout` and empty by default;
the rule layer's opacity is 0.3 when the selection is active and 0
otherwise (altair state machine: empty until first hover, active while
hovering, cleared on mouseout). -/
theorem chart_builders_selection_semantics :
    (∀ (data : List URow) (colname : String) (log_scale : Bool),
      ((alt_line_chart data colname log_scale).layers.map fun l => l.mark) =
          [MarkType.line, MarkType.point, MarkType.rule] ∧
        ((alt_line_chart data colname log_scale).layers.map fun l => l.filterSelection) =
          [none, some lineChartSelection, none] ∧
        ((alt_line_chart data colname log_scale).layers.map fun l => l.addedSelections) =
          [[], [], [lineChartSelection]] ∧
        ((alt_line_chart data colname log_scale).layers.map fun l => l.pivotTransform) =
          [none, none,
            some { pivot := "blockchain", value := colname, groupby := ["datetime"] }] ∧
        ((alt_line_chart data colname log_scale).layers.map fun l => l.opacityCondition) =
          [none, none,
            some { selection := lineChartSelection, active := 3 / 10, inactive := 0 }]) ∧
    (∀ (gp : String → List RawPriceRow) (tl : List String) (bdf : List TokenRow)
        (value : String) (dr : Option ℕ) (vf cc : String) (istable : Bool),
      ((alt_date_line gp tl bdf value dr vf cc istable).layers.map fun l => l.mark) =
          [MarkType.line, MarkType.point, MarkType.rule] ∧
        ((alt_date_line gp tl bdf value dr vf cc istable).layers.map fun l => l.filterSelection) =
          [none, some dateLineSelection, none] ∧
        ((alt_date_line gp tl bdf value dr vf cc istable).layers.map fun l => l.addedSelections) =
          [[], [], [dateLineSelection]] ∧
        ((alt_date_line gp tl bdf value dr vf cc istable).layers.map fun l => l.pivotTransform) =
          [none, none, some { pivot := cc, value := value, groupby := ["date"] }] ∧
        ((alt_date_line gp tl bdf value dr vf cc istable).layers.map fun l => l.opacityCondition) =
          [none, none,
            some { selection := dateLineSelection, active := 3 / 10, inactive := 0 }]) :=
  ⟨fun _ _ _ => ⟨rfl, rfl, rfl, rfl, rfl⟩, fun _ _ _ _ _ _ _ _ => ⟨rfl, rfl, rfl, rfl, rfl⟩⟩

/-! ### Multi-blockchain loader: theorems -/

/-- C10: every row of the table `load_data` returns has a calendar date
strictly before the current day, the returned rows are sorted ascending
by `datetime`, and a tagged input row appears in the output exactly when
its date is strictly before today — rows dated today or later are
silently excluded, nothing else is dropped. -/
theorem load_data_before_today_sorted (sources : List (String × List QRow)) (today : ℤ) :
    (∀ r ∈ load_data sources today, dateOf r.datetime < today) ∧
      (load_data sources today).Pairwise (fun a b => a.datetime ≤ b.datetime) ∧
      ∀ r : URow,
        r ∈ load_data sources today ↔
          r ∈ (sources.map fun v => v.2.map fun q =>
                { datetime := q.datetime, blockchain := v.1 : URow }).flatten ∧
            dateOf r.datetime < today := by
  refine ⟨?_, ?_, ?_⟩
  · intro r hr
    simp only [load_data] at hr
    exact of_decide_eq_true (List.mem_filter.mp hr).2
  · have hs : ∀ l : List URow, (sortByDatetime l).Pairwise dtLE :=
      fun l => List.sorted_insertionSort dtLE l
    exact List.Pairwise.sublist (List.filter_sublist _) (hs _)
  · intro r
    simp only [load_data, sortByDatetime]
    rw [List.mem_filter]
    constructor
    · rintro ⟨hmem, hlt⟩
      exact ⟨(List.perm_insertionSort dtLE _).mem_iff.mp hmem, of_decide_eq_true hlt⟩
    · rintro ⟨hmem, hlt⟩
      exact ⟨(List.perm_insertionSort dtLE _).mem_iff.mpr hmem, decide_eq_true hlt⟩

theorem load_data_before_today_sorted_witness :
    ({ datetime := 1, blockchain := "Ethereum" } : URow) ∈ load_data sampleSources 5 ∧
      dateOf ((1 : ℚ)) < 5 := by
  have hmem : ({ datetime := 1, blockchain := "Ethereum" } : URow) ∈ load_data sampleSources 5 := by
    norm_num [load_data, sampleSources, sortByDatetime, dtLE, List.insertionSort,
      List.orderedInsert, dateOf, List.filter]
  exact ⟨hmem, (load_data_before_today_sorted sampleSources 5).1 _ hmem⟩
